import Mathlib

open List

/-!
Verification of the exam-generation core of `app.py` (generador-pau-ti).

The generation core consists of `load_bank_yml`, `filter_bank`,
`pick_questions`, and `generate_exam`.  These are embedded below as pure
Lean functions.  The pseudo-random number generator (`random.Random`) is an
external standard-library collaborator; it is modelled as an explicit
deterministic state threaded through the sampling procedure, per its
documented contract (seeded, deterministic, sampling without replacement).
-/

/-- Python's `str.lower()` (ASCII case mapping), applied characterwise. -/
def pyLower (s : String) : String := ⟨s.data.map Char.toLower⟩

/-- Whether a character is whitespace for Python's `str.strip()`. -/
def isPySpace (c : Char) : Bool :=
  c = ' ' || c = '\t' || c = '\n' || c = '\r' || c = '\x0b' || c = '\x0c'

/-- Python's `str.strip()`: remove leading and trailing whitespace. -/
def pyStrip (s : String) : String :=
  ⟨((s.data.dropWhile isPySpace).reverse.dropWhile isPySpace).reverse⟩

/-- The immutable question record (frozen dataclass `Question` in `app.py`):
`id`, `statement`, `topic`, `difficulty`, `answer`, all strings. -/
structure Question where
  id : String
  statement : String
  topic : String
  difficulty : String
  answer : String
deriving DecidableEq

/-- Modelled from the spec: one step of the seeded pseudo-random stream of
`random.Random` (an external stdlib collaborator; the spec only requires the
stream to be a deterministic function of the seed).  A 64-bit linear
congruential step stands in for the concrete generator. -/
def lcgNext (g : Nat) : Nat :=
  (6364136223846793005 * g + 1442695040888963407) % (2 ^ 64)

/-- Modelled from the spec: draw a number below `k` from the stream state `g`,
returning the drawn value and the advanced state. -/
def randBelow (g : Nat) (k : Nat) : Nat × Nat :=
  (g % k, lcgNext g)

/-- Modelled from the spec: `rng.sample(pool, n)` — seeded sampling of `n`
elements from `pool` without replacement (each draw picks one remaining
position and removes it), threading the generator state. -/
def sample : Nat → List Question → Nat → List Question × Nat
  | 0, _, g => ([], g)
  | n + 1, pool, g =>
    if h : pool.length = 0 then ([], g)
    else
      let d := randBelow g pool.length
      let j : Fin pool.length := ⟨d.1, Nat.mod_lt _ (Nat.pos_of_ne_zero h)⟩
      let rest := sample n (pool.eraseIdx j.1) d.2
      (pool.get j :: rest.1, rest.2)

/-- The failure surface of the generation core.  Each constructor corresponds
to one `raise ValueError(...)` site in `app.py`; payloads mirror the numbers
interpolated into the message. -/
inductive GenError where
  /-- `generate_exam`: "n_exercises ha de ser > 0". -/
  | invalidCount : GenError
  /-- `generate_exam`: "Amb aquests filtres no hi ha cap pregunta disponible." -/
  | noCandidates : GenError
  /-- `pick_questions`: "No hi ha prou preguntes al banc per crear l'examen."
  with available / needed / avoided counts. -/
  | insufficientPool (available needed avoided : Nat) : GenError
  /-- `generate_exam`: "No hi ha prou preguntes per fer dues versions (A i B)"
  with available / needed counts; raised before any sampling. -/
  | insufficientPoolTwoVersions (available needed : Nat) : GenError
deriving DecidableEq

/-- The spec's `InvalidConfiguration` class: non-positive count or empty
candidate list. -/
def GenError.isInvalidConfiguration : GenError → Bool
  | .invalidCount => true
  | .noCandidates => true
  | _ => false

/-- The spec's `InsufficientPool` class: not enough eligible questions. -/
def GenError.isInsufficientPool : GenError → Bool
  | .insufficientPool _ _ _ => true
  | .insufficientPoolTwoVersions _ _ => true
  | _ => false

/-- `pick_questions(candidates, rng, n, avoid_ids)` from `app.py`: filterout
the avoided ids, fail when the remaining pool is smaller than `n`, otherwise
sample `n` questions without replacement. -/
def pick_questions (candidates : List Question) (rng : Nat) (n : Nat)
    (avoid_ids : Finset String) : Except GenError (List Question × Nat) :=
  let pool := candidates.filter (fun q => decide (q.id ∉ avoid_ids))
  if pool.length < n then
    .error (.insufficientPool pool.length n avoid_ids.card)
  else
    .ok (sample n pool rng)

/-- An assembled exam: the Python dict mapping variant labels to ordered
question lists, in insertion order. -/
abbrev Exam := List (String × List Question)

/-- `generate_exam(candidates, seed, n_exercises, two_versions,
allow_repeat_between_versions)` from `app.py`.  `n_exercises` is an `Int`
because the source validates `n_exercises <= 0` on a Python int.  The local
`rng = random.Random(seed)` becomes the initial stream state, threaded from
variant A's draw into variant B's. -/
def generate_exam (candidates : List Question) (seed : Nat) (n_exercises : Int)
    (two_versions : Bool) (allow_repeat_between_versions : Bool) :
    Except GenError Exam :=
  if n_exercises ≤ 0 then .error .invalidCount
  else if candidates = [] then .error .noCandidates
  else
    let rng := seed
    let n := n_exercises.toNat
    if two_versions = false then
      match pick_questions candidates rng n ∅ with
      | .error e => .error e
      | .ok (a, _) => .ok [("A", a)]
    else
      let needed : Int :=
        if allow_repeat_between_versions then n_exercises else 2 * n_exercises
      if (candidates.length : Int) < needed then
        .error (.insufficientPoolTwoVersions candidates.length needed.toNat)
      else
        match pick_questions candidates rng n ∅ with
        | .error e => .error e
        | .ok (a, rng1) =>
          let used : Finset String := (a.map Question.id).toFinset
          let avoid_for_b : Finset String :=
            if allow_repeat_between_versions then ∅ else used
          match pick_questions candidates rng1 n avoid_for_b with
          | .error e => .error e
          | .ok (b, _) => .ok [("A", a), ("B", b)]

/-- `filter_bank(bank, topic, difficulty)` from `app.py`: keep questions whose
topic equals the selector (unless it is the wildcard "Tots"), then those whose
difficulty equals the lowercased selector (unless it is the wildcard "Totes"). -/
def filter_bank (bank : List Question) (topic : String) (difficulty : String) :
    List Question :=
  let c := bank
  let c := if topic ≠ "Tots" then c.filter (fun q => decide (q.topic = topic)) else c
  let c :=
    if difficulty ≠ "Totes" then
      c.filter (fun q => decide (q.difficulty = pyLower difficulty))
    else c
  c

/-- One raw YAML record handed to the loader: either a mapping with the five
keys each present or absent (values already passed through Python's `str`),
or some non-mapping value. -/
inductive YamlItem where
  | dict (id statement topic difficulty answer : Option String) : YamlItem
  | other : YamlItem
deriving DecidableEq

/-- Whether a raw record is a mapping carrying all five required keys
(`id, statement, topic, difficulty, answer`). -/
def YamlItem.hasAllFields : YamlItem → Bool
  | .dict (some _) (some _) (some _) (some _) (some _) => true
  | _ => false

/-- The trimmed id a raw record would contribute, when it is a mapping with
an `id` key. -/
def YamlItem.itemId : YamlItem → Option String
  | .dict (some i) _ _ _ _ => some (pyStrip i)
  | _ => none

/-- The loop body of `load_bank_yml` over the parsed list, with the `seen`
id set as accumulator: reject non-mappings, missing keys, empty (after strip)
ids and already-seen ids, and build `Question` records with stripped fields
and lowercased difficulty. -/
def load_items : List YamlItem → List String → Except String (List Question)
  | [], _ => .ok []
  | item :: rest, seen =>
    match item with
    | .other => .error "record is not a mapping"
    | .dict i s t d a =>
      match i, s, t, d, a with
      | some i, some s, some t, some d, some a =>
        let qid := pyStrip i
        if qid = "" then .error "empty id"
        else if qid ∈ seen then .error "duplicate id"
        else
          match load_items rest (qid :: seen) with
          | .error e => .error e
          | .ok qs =>
            .ok (Question.mk qid (pyStrip s) (pyStrip t) (pyLower (pyStrip d)) (pyStrip a) :: qs)
      | _, _, _, _, _ => .error "missing required field"

/-- `load_bank_yml` from `app.py`, given the already-parsed YAML root list:
run the validating loop and reject an empty bank. -/
def load_bank (items : List YamlItem) : Except String (List Question) :=
  match load_items items [] with
  | .error e => .error e
  | .ok [] => .error "empty bank"
  | .ok qs => .ok qs


/-- Example fixtures used by witness and counterexample theorems. -/
def qEx1 : Question := ⟨"q1", "s1", "t1", "easy", "a1"⟩
def qEx2 : Question := ⟨"q2", "s2", "t1", "easy", "a2"⟩
def qEx3 : Question := ⟨"q3", "s3", "t2", "hard", "a3"⟩
def qEx4 : Question := ⟨"q4", "s4", "t2", "hard", "a4"⟩
def bankEx : List Question := [qEx1, qEx2, qEx3, qEx4]

def qHard : Question := ⟨"qh", "s", "t", "HARD", "a"⟩

theorem subperm_map {α β : Type} (f : α → β) {l₁ l₂ : List α} (h : l₁ <+~ l₂) :
    l₁.map f <+~ l₂.map f := by
  obtain ⟨l, hp, hs⟩ := h
  exact ⟨l.map f, hp.map f, hs.map f⟩

theorem subperm_nodup {α : Type} {l₁ l₂ : List α} (h : l₁ <+~ l₂)
    (hn : l₂.Nodup) : l₁.Nodup := by
  obtain ⟨l, hp, hs⟩ := h
  exact hp.nodup_iff.mp (hn.sublist hs)

theorem perm_get_cons_eraseIdx (pool : List Question) (j : Fin pool.length) :
    pool ~ pool.get j :: pool.eraseIdx j.1 := by
  have hmem : pool.get j ∈ pool := by
    simp [List.get_eq_getElem]
  have h1 : pool ~ pool.get j :: pool.erase (pool.get j) := List.perm_cons_erase hmem
  have h2 : pool.erase (pool.get j) ~ pool.eraseIdx j.1 := by
    simpa using List.erase_getElem j.isLt
  exact h1.trans (h2.cons _)

theorem sample_length {n : Nat} {pool : List Question} {g : Nat}
    (h : n ≤ pool.length) : (sample n pool g).1.length = n := by
  induction n generalizing pool g with
  | zero => rfl
  | succ m ih =>
    have h0 : pool.length ≠ 0 := by omega
    simp only [sample, dif_neg h0]
    have hlt : (randBelow g pool.length).1 < pool.length :=
      Nat.mod_lt _ (Nat.pos_of_ne_zero h0)
    have hlen : (pool.eraseIdx (randBelow g pool.length).1).length + 1 = pool.length :=
      List.length_eraseIdx_add_one hlt
    have := @ih (pool.eraseIdx (randBelow g pool.length).1)
      ((randBelow g pool.length).2) (by omega)
    simp [this]

theorem sample_subperm (n : Nat) (pool : List Question) (g : Nat) :
    (sample n pool g).1 <+~ pool := by
  induction n generalizing pool g with
  | zero => exact List.nil_subperm
  | succ m ih =>
    by_cases h0 : pool.length = 0
    · simp only [sample, dif_pos h0]
      exact List.nil_subperm
    · simp only [sample, dif_neg h0]
      set j : Fin pool.length :=
        ⟨(randBelow g pool.length).1, Nat.mod_lt _ (Nat.pos_of_ne_zero h0)⟩ with hj
      have hrest := ih (pool.eraseIdx j.1) (randBelow g pool.length).2
      have hcons : pool.get j :: (sample m (pool.eraseIdx j.1) (randBelow g pool.length).2).1
          <+~ pool.get j :: pool.eraseIdx j.1 := (List.subperm_cons _).mpr hrest
      exact hcons.trans (perm_get_cons_eraseIdx pool j).symm.subperm

theorem pick_questions_ok {c : List Question} {g n : Nat} {avoid : Finset String}
    {qs : List Question} {g' : Nat}
    (h : pick_questions c g n avoid = .ok (qs, g')) :
    qs.length = n ∧ qs <+~ c.filter (fun q => decide (q.id ∉ avoid)) := by
  unfold pick_questions at h
  dsimp only at h
  split at h
  · exact Except.noConfusion h
  · next hlt =>
    injection h with h1
    have hq := congrArg Prod.fst h1
    simp only at hq
    subst hq
    exact ⟨sample_length (by omega), sample_subperm _ _ _⟩

theorem pick_questions_mem {c : List Question} {g n : Nat} {avoid : Finset String}
    {qs : List Question} {g' : Nat}
    (h : pick_questions c g n avoid = .ok (qs, g'))
    {q : Question} (hq : q ∈ qs) : q ∈ c ∧ q.id ∉ avoid := by
  have hmem := (pick_questions_ok h).2.subset hq
  have h2 := List.mem_filter.mp hmem
  exact ⟨h2.1, of_decide_eq_true h2.2⟩

theorem filter_avoid_empty (c : List Question) :
    c.filter (fun q => decide (q.id ∉ (∅ : Finset String))) = c := by
  apply List.filter_eq_self.mpr
  intro q hq
  simp

theorem pick_questions_isOk {c : List Question} {g n : Nat} {avoid : Finset String}
    (h : n ≤ (c.filter (fun q => decide (q.id ∉ avoid))).length) :
    pick_questions c g n avoid =
      .ok (sample n (c.filter (fun q => decide (q.id ∉ avoid))) g) := by
  unfold pick_questions
  dsimp only
  rw [if_neg (by omega)]

theorem generate_exam_ok_cases {c : List Question} {seed : Nat} {n : Int}
    {tv ar : Bool} {ex : Exam}
    (h : generate_exam c seed n tv ar = .ok ex) :
    0 < n ∧ c ≠ [] ∧
    ((tv = false ∧ ∃ a g1, pick_questions c seed n.toNat ∅ = .ok (a, g1) ∧
        ex = [("A", a)]) ∨
     (tv = true ∧ ¬ ((c.length : Int) < (if ar then n else 2 * n)) ∧
      ∃ a g1 b g2,
        pick_questions c seed n.toNat ∅ = .ok (a, g1) ∧
        pick_questions c g1 n.toNat
          (if ar then ∅ else (a.map Question.id).toFinset) = .ok (b, g2) ∧
        ex = [("A", a), ("B", b)])) := by
  unfold generate_exam at h
  dsimp only at h
  split at h
  · exact Except.noConfusion h
  next hn =>
  split at h
  · exact Except.noConfusion h
  next hc =>
  refine ⟨by omega, hc, ?_⟩
  cases tv with
  | false =>
    rw [if_pos rfl] at h
    left
    refine ⟨rfl, ?_⟩
    split at h
    · exact Except.noConfusion h
    · next a g1 hpick =>
      injection h with h1
      exact ⟨a, g1, hpick, h1.symm⟩
  | true =>
    rw [if_neg (by simp)] at h
    right
    refine ⟨rfl, ?_⟩
    cases ar with
    | false =>
      simp only [Bool.false_eq_true, if_false] at h ⊢
      split at h
      · exact Except.noConfusion h
      · next hlen =>
        refine ⟨hlen, ?_⟩
        split at h
        · exact Except.noConfusion h
        · next a g1 hpickA =>
          split at h
          · exact Except.noConfusion h
          · next b g2 hpickB =>
            injection h with h1
            exact ⟨a, g1, b, g2, hpickA, hpickB, h1.symm⟩
    | true =>
      simp only [if_true] at h ⊢
      split at h
      · exact Except.noConfusion h
      · next hlen =>
        refine ⟨hlen, ?_⟩
        split at h
        · exact Except.noConfusion h
        · next a g1 hpickA =>
          split at h
          · exact Except.noConfusion h
          · next b g2 hpickB =>
            injection h with h1
            exact ⟨a, g1, b, g2, hpickA, hpickB, h1.symm⟩

/-- C1: for a fixed candidate list (contents and order), seed, exercise count
and flags, any two calls to `generate_exam` return exactly the same exam —
the same variant labels and the same questions in the same order.  The
embedding is a pure function of exactly these five inputs (the generator is
seeded locally from `seed`), so equal inputs force equal outputs. -/
theorem generate_exam_deterministic (c c' : List Question) (seed seed' : Nat)
    (n n' : Int) (tv tv' ar ar' : Bool)
    (hc : c = c') (hs : seed = seed') (hn : n = n') (htv : tv = tv')
    (har : ar = ar') :
    generate_exam c seed n tv ar = generate_exam c' seed' n' tv' ar' := by
  subst hc hs hn htv har
  rfl

theorem generate_exam_deterministic_witness :
    generate_exam bankEx 0 2 true false = generate_exam bankEx 0 2 true false :=
  generate_exam_deterministic bankEx bankEx 0 0 2 2 true true false false
    rfl rfl rfl rfl rfl

/-- C3: whenever `generate_exam` succeeds, every variant of the returned exam
contains exactly `n_exercises` questions. -/
theorem generate_exam_ok_variant_length (c : List Question) (seed : Nat)
    (n : Int) (tv ar : Bool) (ex : Exam)
    (h : generate_exam c seed n tv ar = .ok ex) :
    ∀ v ∈ ex, ((v.2.length : Int) = n) := by
  obtain ⟨hn, -, hcase⟩ := generate_exam_ok_cases h
  have htn : (n.toNat : Int) = n := Int.toNat_of_nonneg (le_of_lt hn)
  rcases hcase with ⟨-, a, g1, hpick, rfl⟩ | ⟨-, -, a, g1, b, g2, hA, hB, rfl⟩
  · intro v hv
    have hva : v = ("A", a) := by simpa using hv
    subst hva
    have hl := (pick_questions_ok hpick).1
    simpa [hl] using htn
  · intro v hv
    have hla := (pick_questions_ok hA).1
    have hlb := (pick_questions_ok hB).1
    rcases (by simpa using hv : v = ("A", a) ∨ v = ("B", b)) with rfl | rfl
    · simpa [hla] using htn
    · simpa [hlb] using htn

theorem generate_exam_ok_variant_length_witness :
    ((("B", [qEx2, qEx4]) : String × List Question).2.length : Int) = 2 :=
  generate_exam_ok_variant_length bankEx 0 2 true false
    [("A", [qEx1, qEx3]), ("B", [qEx2, qEx4])] (by rfl)
    ("B", [qEx2, qEx4]) (by simp)

/-- C2: when `generate_exam` is called with `two_versions = true` and
`allow_repeat_between_versions = false` and succeeds, the id sets of variant
A and variant B are disjoint. -/
theorem generate_exam_two_versions_disjoint (c : List Question) (seed : Nat)
    (n : Int) (ex : Exam)
    (h : generate_exam c seed n true false = .ok ex) :
    ∃ a b, ex = [("A", a), ("B", b)] ∧
      ∀ x ∈ a.map Question.id, x ∉ b.map Question.id := by
  obtain ⟨-, -, hcase⟩ := generate_exam_ok_cases h
  rcases hcase with ⟨hfalse, -⟩ | ⟨-, -, a, g1, b, g2, hA, hB, rfl⟩
  · exact absurd hfalse (by simp)
  · refine ⟨a, b, rfl, ?_⟩
    intro x hx hxb
    obtain ⟨q, hqb, rfl⟩ := List.mem_map.mp hxb
    simp only [Bool.false_eq_true, if_false] at hB
    have havoid := (pick_questions_mem hB hqb).2
    rw [List.mem_toFinset] at havoid
    exact havoid hx

theorem generate_exam_two_versions_disjoint_witness :
    ∃ a b, ([("A", [qEx1, qEx3]), ("B", [qEx2, qEx4])] : Exam) = [("A", a), ("B", b)] ∧
      ∀ x ∈ a.map Question.id, x ∉ b.map Question.id :=
  generate_exam_two_versions_disjoint bankEx 0 2 _ (by rfl)

/-- C10: whenever both calls succeed, variant "A" of a two-variant generation
coincides with the single variant produced with `two_versions = false` under
the same candidates, seed and count: both are the first draw from a fresh
generator seeded identically, with an empty exclusion set. -/
theorem generate_exam_variantA_refines_single (c : List Question) (seed : Nat)
    (n : Int) (ar : Bool) (ex1 ex2 : Exam)
    (h1 : generate_exam c seed n false ar = .ok ex1)
    (h2 : generate_exam c seed n true ar = .ok ex2) :
    ex1.lookup "A" = ex2.lookup "A" := by
  obtain ⟨-, -, hc1⟩ := generate_exam_ok_cases h1
  obtain ⟨-, -, hc2⟩ := generate_exam_ok_cases h2
  rcases hc1 with ⟨-, a1, g1, hp1, rfl⟩ | ⟨htrue, -⟩
  · rcases hc2 with ⟨hfalse, -⟩ | ⟨-, -, a2, g2', b, g3, hp2, -, rfl⟩
    · exact absurd hfalse (by simp)
    · rw [hp1] at hp2
      injection hp2 with heq
      have ha : a1 = a2 := congrArg Prod.fst heq
      subst ha
      simp [List.lookup]
  · exact absurd htrue (by simp)

theorem generate_exam_variantA_refines_single_witness :
    ([("A", [qEx1, qEx3])] : Exam).lookup "A" =
      ([("A", [qEx1, qEx3]), ("B", [qEx2, qEx4])] : Exam).lookup "A" :=
  generate_exam_variantA_refines_single bankEx 0 2 false _ _ (by rfl) (by rfl)

theorem pick_questions_error_shape {c : List Question} {g n : Nat}
    {avoid : Finset String} {e : GenError}
    (h : pick_questions c g n avoid = .error e) :
    ∃ av nd ad, e = .insufficientPool av nd ad := by
  unfold pick_questions at h
  dsimp only at h
  split at h
  · injection h with h1
    exact ⟨_, _, _, h1.symm⟩
  · exact Except.noConfusion h

/-- C5 (amended): when the Selector succeeds, the returned list has exactly
`n` elements, every element comes from `candidates` and has an id outside the
exclusion set, and — provided `candidates` itself contains no repeated
element — no element repeats in the result (sampling without replacement). -/
theorem pick_questions_selection_spec (c : List Question) (g n : Nat)
    (avoid : Finset String) (qs : List Question)
    (h : (pick_questions c g n avoid).map Prod.fst = .ok qs) :
    qs.length = n ∧ (∀ q ∈ qs, q ∈ c ∧ q.id ∉ avoid) ∧
      (c.Nodup → qs.Nodup) := by
  cases hp : pick_questions c g n avoid with
  | error e => rw [hp] at h; exact Except.noConfusion h
  | ok p =>
    obtain ⟨qs', g'⟩ := p
    rw [hp] at h
    injection h with h1
    subst h1
    obtain ⟨hlen, hsub⟩ := pick_questions_ok hp
    exact ⟨hlen, fun q hq => pick_questions_mem hp hq,
      fun hnd => subperm_nodup hsub (hnd.filter _)⟩

theorem pick_questions_selection_spec_witness :
    ([qEx1, qEx3] : List Question).length = 2 ∧
      (∀ q ∈ ([qEx1, qEx3] : List Question), q ∈ bankEx ∧ q.id ∉ (∅ : Finset String)) ∧
      (bankEx.Nodup → ([qEx1, qEx3] : List Question).Nodup) :=
  pick_questions_selection_spec bankEx 0 2 ∅ [qEx1, qEx3] (by rfl)

/-- C5 counterexample: with a duplicated candidate the Selector can succeed
and return a list with a repeated element, so "contains no repeated element"
does not hold for every candidate list. -/
theorem pick_questions_repeat_cex :
    (pick_questions [qEx1, qEx1] 0 2 ∅).map Prod.fst = .ok [qEx1, qEx1] ∧
      ¬ ([qEx1, qEx1] : List Question).Nodup := by
  refine ⟨rfl, ?_⟩
  simp

/-- C4 counterexample: with an empty candidate list (so `len(candidates) < n`)
the assembler fails with the `InvalidConfiguration` error of the
empty-candidates validation, not with an `InsufficientPool` error. -/
theorem generate_exam_empty_pool_error_cex :
    generate_exam [] 0 1 false false = .error .noCandidates ∧
      GenError.noCandidates.isInsufficientPool = false := ⟨rfl, rfl⟩

/-- C4 (amended): for every NONEMPTY candidate list and `n > 0`, single-variant
generation with `len(candidates) < n` fails with the Selector's
`InsufficientPool` error, and two-variant no-repeat generation with
`len(candidates) < 2n` fails with the up-front `InsufficientPool` check that
precedes any sampling; in both cases an error (and no partial exam) is
returned. -/
theorem generate_exam_failure_threshold (c : List Question) (seed : Nat)
    (n : Int) (ar : Bool) (hne : c ≠ []) (hn : 0 < n) :
    ((c.length : Int) < n →
      generate_exam c seed n false ar =
        .error (.insufficientPool c.length n.toNat 0)) ∧
    ((c.length : Int) < 2 * n →
      generate_exam c seed n true false =
        .error (.insufficientPoolTwoVersions c.length (2 * n).toNat)) := by
  constructor
  · intro hlt
    unfold generate_exam
    dsimp only
    rw [if_neg (by omega), if_neg hne, if_pos rfl]
    unfold pick_questions
    dsimp only
    rw [filter_avoid_empty]
    rw [if_pos (by omega)]
    simp
  · intro hlt
    unfold generate_exam
    dsimp only
    rw [if_neg (by omega), if_neg hne]
    rw [if_neg (by simp)]
    simp only [Bool.false_eq_true, if_false]
    rw [if_pos hlt]

theorem generate_exam_failure_threshold_witness :
    generate_exam [qEx1] 0 2 false false =
        .error (.insufficientPool 1 2 0) ∧
      generate_exam [qEx1] 0 2 true false =
        .error (.insufficientPoolTwoVersions 1 4) := by
  have h := generate_exam_failure_threshold [qEx1] 0 2 false
    (by simp) (by norm_num)
  exact ⟨by simpa using h.1 (by norm_num), by simpa using h.2 (by norm_num)⟩

/-- C6 counterexample: a bank question whose difficulty equals the selector
under case-insensitive comparison (`"HARD"` vs selector `"HARD"`) is NOT
returned by `filter_bank`, because the source compares the stored difficulty
verbatim against the lowercased selector. -/
theorem filter_bank_case_insensitive_cex :
    pyLower qHard.difficulty = pyLower "HARD" ∧
      qHard ∉ filter_bank [qHard] "Tots" "HARD" := by
  refine ⟨rfl, ?_⟩
  intro hmem
  have hempty : filter_bank [qHard] "Tots" "HARD" = [] := rfl
  rw [hempty] at hmem
  simp at hmem

/-- C6 (amended): `filter_bank` returns exactly the bank elements whose topic
equals the topic selector (unless that selector is the wildcard "Tots") and
whose stored difficulty equals the LOWERCASED difficulty selector (unless
that selector is the wildcard "Totes"); being a total function it never
raises, and an empty result is a valid output. -/
theorem filter_bank_mem (bank : List Question) (topic difficulty : String)
    (q : Question) :
    q ∈ filter_bank bank topic difficulty ↔
      q ∈ bank ∧ (topic = "Tots" ∨ q.topic = topic) ∧
        (difficulty = "Totes" ∨ q.difficulty = pyLower difficulty) := by
  unfold filter_bank
  dsimp only
  by_cases ht : topic = "Tots" <;> by_cases hd : difficulty = "Totes" <;>
    simp [ht, hd, List.mem_filter, and_assoc] <;>
    tauto

theorem generate_exam_error_pool {c : List Question} {seed : Nat} {n : Int}
    {tv ar : Bool} {e : GenError}
    (hn : ¬ n ≤ 0) (hc : c ≠ [])
    (h : generate_exam c seed n tv ar = .error e) :
    e.isInsufficientPool = true := by
  unfold generate_exam at h
  dsimp only at h
  rw [if_neg hn, if_neg hc] at h
  cases tv with
  | false =>
    rw [if_pos rfl] at h
    cases hp : pick_questions c seed n.toNat ∅ with
    | error e' =>
      rw [hp] at h
      dsimp only at h
      injection h with h1
      obtain ⟨av, nd, ad, rfl⟩ := pick_questions_error_shape hp
      subst h1
      rfl
    | ok p =>
      obtain ⟨a, g1⟩ := p
      rw [hp] at h
      exact Except.noConfusion h
  | true =>
    rw [if_neg (by simp)] at h
    cases ar with
    | false =>
      simp only [Bool.false_eq_true, if_false] at h
      split at h
      · injection h with h1
        subst h1
        rfl
      · cases hp : pick_questions c seed n.toNat ∅ with
        | error e' =>
          rw [hp] at h
          dsimp only at h
          injection h with h1
          obtain ⟨av, nd, ad, rfl⟩ := pick_questions_error_shape hp
          subst h1
          rfl
        | ok p =>
          obtain ⟨a, g1⟩ := p
          rw [hp] at h
          dsimp only at h
          cases hp2 : pick_questions c g1 n.toNat (a.map Question.id).toFinset with
          | error e' =>
            rw [hp2] at h
            dsimp only at h
            injection h with h1
            obtain ⟨av, nd, ad, rfl⟩ := pick_questions_error_shape hp2
            subst h1
            rfl
          | ok p2 =>
            obtain ⟨b, g2⟩ := p2
            rw [hp2] at h
            exact Except.noConfusion h
    | true =>
      simp only [if_true] at h
      split at h
      · injection h with h1
        subst h1
        rfl
      · cases hp : pick_questions c seed n.toNat ∅ with
        | error e' =>
          rw [hp] at h
          dsimp only at h
          injection h with h1
          obtain ⟨av, nd, ad, rfl⟩ := pick_questions_error_shape hp
          subst h1
          rfl
        | ok p =>
          obtain ⟨a, g1⟩ := p
          rw [hp] at h
          dsimp only at h
          cases hp2 : pick_questions c g1 n.toNat ∅ with
          | error e' =>
            rw [hp2] at h
            dsimp only at h
            injection h with h1
            obtain ⟨av, nd, ad, rfl⟩ := pick_questions_error_shape hp2
            subst h1
            rfl
          | ok p2 =>
            obtain ⟨b, g2⟩ := p2
            rw [hp2] at h
            exact Except.noConfusion h

/-- C7: `generate_exam` fails with an `InvalidConfiguration` error exactly
when the requested exercise count is not strictly positive or the candidate
list is empty; for any other input this validation passes (any failure is an
`InsufficientPool` error instead). -/
theorem generate_exam_invalidConfiguration_iff (c : List Question) (seed : Nat)
    (n : Int) (tv ar : Bool) :
    (∃ e, generate_exam c seed n tv ar = .error e ∧
        e.isInvalidConfiguration = true) ↔
      (n ≤ 0 ∨ c = []) := by
  constructor
  · rintro ⟨e, he, hcls⟩
    by_cases hn : n ≤ 0
    · exact Or.inl hn
    by_cases hc : c = []
    · exact Or.inr hc
    exfalso
    have hpool := generate_exam_error_pool hn hc he
    cases e <;>
      simp [GenError.isInvalidConfiguration, GenError.isInsufficientPool]
        at hcls hpool
  · intro h
    by_cases hn : n ≤ 0
    · refine ⟨.invalidCount, ?_, rfl⟩
      unfold generate_exam
      rw [if_pos hn]
    · have hc : c = [] := by tauto
      refine ⟨.noCandidates, ?_, rfl⟩
      unfold generate_exam
      rw [if_neg hn, if_pos hc]

theorem length_filter_not_used (c a : List Question)
    (hids : (c.map Question.id).Nodup) :
    c.length ≤
      (c.filter (fun q => decide (q.id ∉ (a.map Question.id).toFinset))).length
        + a.length := by
  have hpart :=
    @List.length_eq_length_filter_add _ c
      (fun q => decide (q.id ∉ (a.map Question.id).toFinset))
  have hr : (c.filter
      (fun q => !(decide (q.id ∉ (a.map Question.id).toFinset)))).length
        ≤ a.length := by
    have hsub : (c.filter
        (fun q => !(decide (q.id ∉ (a.map Question.id).toFinset)))).map Question.id
          ⊆ a.map Question.id := by
      intro x hx
      obtain ⟨q, hq, rfl⟩ := List.mem_map.mp hx
      have hmem := (List.mem_filter.mp hq).2
      simp only [Bool.not_eq_true', decide_eq_false_iff_not, not_not] at hmem
      simpa using hmem
    have hnd : ((c.filter
        (fun q => !(decide (q.id ∉ (a.map Question.id).toFinset)))).map
          Question.id).Nodup :=
      List.Nodup.sublist ((List.filter_sublist c).map Question.id) hids
    have hle := (List.subperm_of_subset hnd hsub).length_le
    simpa using hle
  omega

/-- C9: for candidates with pairwise-distinct ids, a positive count, and a
pool of at least `n` (single variant, or two variants with repeats allowed)
respectively `2n` (two variants, no repeats) candidates, `generate_exam`
succeeds: in particular removing variant A's `n` ids from at least `2n`
distinct-id candidates leaves at least `n` eligible candidates for B. -/
theorem generate_exam_sufficient_pool_ok (c : List Question) (seed : Nat)
    (n : Int) (tv ar : Bool)
    (hids : (c.map Question.id).Nodup) (hn : 0 < n)
    (hlen : (if tv = true ∧ ar = false then 2 * n else n) ≤ (c.length : Int)) :
    ∃ ex, generate_exam c seed n tv ar = .ok ex := by
  have hnlen : n ≤ (c.length : Int) := by
    by_cases h : tv = true ∧ ar = false
    · rw [if_pos h] at hlen; omega
    · rw [if_neg h] at hlen; omega
  have hnc : n.toNat ≤ c.length := by omega
  have hc : c ≠ [] := by
    intro hnil
    subst hnil
    simp at hnc
    omega
  have hApool : n.toNat ≤
      (c.filter (fun q => decide (q.id ∉ (∅ : Finset String)))).length := by
    rw [filter_avoid_empty]; exact hnc
  unfold generate_exam
  dsimp only
  rw [if_neg (by omega), if_neg hc]
  cases tv with
  | false =>
    rw [if_pos rfl, pick_questions_isOk hApool]
    exact ⟨_, rfl⟩
  | true =>
    rw [if_neg (by simp)]
    cases ar with
    | true =>
      simp only [if_true]
      rw [if_neg (by omega), pick_questions_isOk hApool]
      dsimp only
      rw [pick_questions_isOk hApool]
      exact ⟨_, rfl⟩
    | false =>
      simp only [Bool.false_eq_true, if_false]
      have h2n : 2 * n ≤ (c.length : Int) := by
        simpa using hlen
      rw [if_neg (by omega), pick_questions_isOk hApool]
      dsimp only
      set a := (sample n.toNat
        (c.filter (fun q => decide (q.id ∉ (∅ : Finset String)))) seed).1 with ha
      have halen : a.length = n.toNat := by
        rw [ha]; exact sample_length hApool
      have hBpool : n.toNat ≤
          (c.filter
            (fun q => decide (q.id ∉ (a.map Question.id).toFinset))).length := by
        have hcount := length_filter_not_used c a hids
        omega
      rw [pick_questions_isOk hBpool]
      exact ⟨_, rfl⟩

theorem generate_exam_sufficient_pool_ok_witness :
    ∃ ex, generate_exam bankEx 0 2 true false = .ok ex :=
  generate_exam_sufficient_pool_ok bankEx 0 2 true false
    (by decide) (by norm_num) (by norm_num [bankEx])

theorem load_items_ok_spec {items : List YamlItem} {seen : List String}
    {qs : List Question} (h : load_items items seen = .ok qs) :
    items.map YamlItem.itemId = qs.map (fun q => some q.id) ∧
    (∀ q ∈ qs, q.id ∉ seen) ∧
    (∀ q ∈ qs, q.id ≠ "") ∧
    (∀ q ∈ qs, ∃ d, q.difficulty = pyLower (pyStrip d)) ∧
    (∀ it ∈ items, it.hasAllFields = true) ∧
    (qs.map Question.id).Nodup := by
  induction items generalizing seen qs with
  | nil =>
    unfold load_items at h
    injection h with h1
    subst h1
    simp
  | cons item rest ih =>
    unfold load_items at h
    cases item with
    | other => exact Except.noConfusion h
    | dict i s t d a =>
      cases i with
      | none => exact Except.noConfusion h
      | some i =>
        cases s with
        | none => exact Except.noConfusion h
        | some s =>
          cases t with
          | none => exact Except.noConfusion h
          | some t =>
            cases d with
            | none => exact Except.noConfusion h
            | some d =>
              cases a with
              | none => exact Except.noConfusion h
              | some a =>
                dsimp only at h
                split at h
                · exact Except.noConfusion h
                next hqid =>
                split at h
                · exact Except.noConfusion h
                next hseen =>
                cases hrest : load_items rest (pyStrip i :: seen) with
                | error e => rw [hrest] at h; exact Except.noConfusion h
                | ok qs' =>
                  rw [hrest] at h
                  dsimp only at h
                  injection h with h1
                  subst h1
                  obtain ⟨ihmap, ihseen, ihne, ihdiff, ihfields, ihnd⟩ := ih hrest
                  refine ⟨?_, ?_, ?_, ?_, ?_, ?_⟩
                  · simp only [List.map_cons, ihmap, YamlItem.itemId]
                  · intro q hq
                    rcases List.mem_cons.mp hq with rfl | hq'
                    · exact hseen
                    · intro hmem
                      exact ihseen q hq' (List.mem_cons_of_mem _ hmem)
                  · intro q hq
                    rcases List.mem_cons.mp hq with rfl | hq'
                    · exact hqid
                    · exact ihne q hq'
                  · intro q hq
                    rcases List.mem_cons.mp hq with rfl | hq'
                    · exact ⟨d, rfl⟩
                    · exact ihdiff q hq'
                  · intro it hit
                    rcases List.mem_cons.mp hit with rfl | hit'
                    · rfl
                    · exact ihfields it hit'
                  · rw [List.map_cons]
                    refine List.nodup_cons.mpr ⟨?_, ihnd⟩
                    intro hmem
                    obtain ⟨q, hq, hqe⟩ := List.mem_map.mp hmem
                    exact ihseen q hq (by rw [hqe]; exact List.mem_cons_self _ _)

/-- C8: when the bank loader succeeds, every returned question has a
non-empty id, the ids are pairwise distinct, and every difficulty is the
lowercased (stripped) source text; moreover an empty bank, any record with a
missing required field, any record with an empty (after stripping) id, and
any two records with the same id each make loading fail. -/
theorem load_bank_invariants :
    (∀ items qs, load_bank items = .ok qs →
      (∀ q ∈ qs, q.id ≠ "") ∧ (qs.map Question.id).Nodup ∧
        (∀ q ∈ qs, ∃ d, q.difficulty = pyLower (pyStrip d))) ∧
    (∃ e, load_bank [] = .error e) ∧
    (∀ items it, it ∈ items → it.hasAllFields = false →
      ∃ e, load_bank items = .error e) ∧
    (∀ items it, it ∈ items → it.itemId = some "" →
      ∃ e, load_bank items = .error e) ∧
    (∀ items i j (hi : i < items.length) (hj : j < items.length), i ≠ j →
      (items.get ⟨i, hi⟩).itemId ≠ none →
      (items.get ⟨i, hi⟩).itemId = (items.get ⟨j, hj⟩).itemId →
      ∃ e, load_bank items = .error e) := by
  have hok : ∀ items qs, load_bank items = .ok qs →
      load_items items [] = .ok qs := by
    intro items qs h
    unfold load_bank at h
    cases hli : load_items items [] with
    | error e => rw [hli] at h; exact Except.noConfusion h
    | ok qs' =>
      rw [hli] at h
      cases qs' with
      | nil => exact Except.noConfusion h
      | cons q qs'' => injection h with h1; rw [h1]
  refine ⟨?_, ?_, ?_, ?_, ?_⟩
  · intro items qs h
    obtain ⟨-, -, hne, hdiff, -, hnd⟩ := load_items_ok_spec (hok items qs h)
    exact ⟨hne, hnd, hdiff⟩
  · exact ⟨"empty bank", rfl⟩
  · intro items it hit hbad
    cases hlb : load_bank items with
    | error e => exact ⟨e, rfl⟩
    | ok qs =>
      obtain ⟨-, -, -, -, hfields, -⟩ := load_items_ok_spec (hok items qs hlb)
      rw [hfields it hit] at hbad
      exact Bool.noConfusion hbad
  · intro items it hit hbad
    cases hlb : load_bank items with
    | error e => exact ⟨e, rfl⟩
    | ok qs =>
      exfalso
      obtain ⟨hmap, -, hne, -, -, -⟩ := load_items_ok_spec (hok items qs hlb)
      have hmem : (some "" : Option String) ∈ items.map YamlItem.itemId := by
        rw [← hbad]
        exact List.mem_map_of_mem _ hit
      rw [hmap] at hmem
      obtain ⟨q, hq, hqe⟩ := List.mem_map.mp hmem
      have : q.id = "" := by injection hqe
      exact hne q hq this
  · intro items i j hi hj hij hnone heq
    cases hlb : load_bank items with
    | error e => exact ⟨e, rfl⟩
    | ok qs =>
      exfalso
      obtain ⟨hmap, -, -, -, -, hnd⟩ := load_items_ok_spec (hok items qs hlb)
      have hlen : items.length = qs.length := by
        have := congrArg List.length hmap
        simpa using this
      have hget : ∀ (k : Nat) (hk : k < items.length),
          (items.get ⟨k, hk⟩).itemId =
            some (qs.get ⟨k, by omega⟩).id := by
        intro k hk
        have h1 := List.get_of_eq hmap ⟨k, by simpa using hk⟩
        rw [List.get_map, List.get_map] at h1
        exact h1
      have hgi := hget i hi
      have hgj := hget j hj
      rw [hgi, hgj] at heq
      have hidseq : (qs.get ⟨i, by omega⟩).id = (qs.get ⟨j, by omega⟩).id := by
        injection heq
      have hndget := List.nodup_iff_injective_get.mp hnd
      have : (⟨i, by simp; omega⟩ : Fin (qs.map Question.id).length) =
          ⟨j, by simp; omega⟩ := by
        apply hndget
        rw [List.get_map, List.get_map]
        exact hidseq
      have : i = j := by
        have := congrArg Fin.val this
        simpa using this
      exact hij this

theorem load_bank_invariants_witness :
    (∀ q ∈ [(⟨"Q1", "s", "t", "hard", "a"⟩ : Question)], q.id ≠ "") ∧
      (([(⟨"Q1", "s", "t", "hard", "a"⟩ : Question)].map Question.id)).Nodup ∧
      (∀ q ∈ [(⟨"Q1", "s", "t", "hard", "a"⟩ : Question)],
        ∃ d, q.difficulty = pyLower (pyStrip d)) :=
  load_bank_invariants.1
    [.dict (some "Q1") (some "s") (some "t") (some "HARD") (some "a")]
    [⟨"Q1", "s", "t", "hard", "a"⟩] (by rfl)
